import Mathlib

/-!
Verification development for the kectl record/replay core.

The definitions below are a shallow embedding of the Go sources:
`pkg/snapshot` (Saver, Loader), `pkg/snapshot/handle` (ResourcePatch,
ObjectRef, interactive Handle), `pkg/printer` (json/yaml printers) and
`pkg/cmd/get.go` (target resolution).  Machine integers (`time.Duration`,
`int64`) are modelled as `Int`; Go maps are modelled as association lists
with replace-on-insert semantics; the YAML/JSON byte payloads are modelled
symbolically by inductive types that record exactly the structure the code
inspects.  External library calls (k8s.io/apimachinery strategic-merge
patch, codec conversion) are modelled as symbolic total operations, with
the failure cases the code distinguishes represented explicitly.
-/

/-! ## Basic data model -/

/-- Group/Version/Resource, mirroring `schema.GroupVersionResource`. -/
structure GroupVersionResource where
  Group : String
  Version : String
  Resource : String
deriving DecidableEq, Repr

/-- Group/Resource pair, mirroring `schema.GroupResource`. -/
structure GroupResource where
  Group : String
  Resource : String
deriving DecidableEq, Repr

/-- Group/Version/Kind, mirroring `schema.GroupVersionKind`. -/
structure GroupVersionKind where
  Group : String
  Version : String
  Kind : String
deriving DecidableEq, Repr

/-- ObjectRef from `pkg/snapshot/handle/ref.go`: name plus namespace. -/
structure ObjectRef where
  Name : String
  Namespace : String
deriving DecidableEq, Repr

/-- A decoded Kubernetes object (`unstructured.Unstructured`), reduced to
the fields the embedded code inspects.  `Body` stands for the remaining
(uninspected) content of the object. -/
structure Obj where
  Kind : String
  Group : String
  Version : String
  Name : String
  Namespace : String
  ResourceVersion : String
  Body : String
deriving DecidableEq, Repr

/-- KObj from `pkg/snapshot/handle/ref.go`. -/
def KObj (obj : Obj) : ObjectRef :=
  { Name := obj.Name, Namespace := obj.Namespace }

/-- KRef from `pkg/snapshot/handle/ref.go` (argument order namespace, name). -/
def KRef (ns name : String) : ObjectRef :=
  { Name := name, Namespace := ns }

/-- Media types distinguished by `pkg/encoding`. -/
inductive MediaType where
  | json
  | yaml
  | protobuf
deriving DecidableEq, Repr

/-- Error kinds surfaced by the embedded code paths. -/
inductive Err where
  | unknownEncoding (tag : String)
  | unknownKind (tag : String)
  | unmarshalFailure (tag : String)
deriving DecidableEq, Repr

/-- JSON byte strings flowing through the record/replay engine, modelled
symbolically.  `objJson o` is `json.Marshal` of object `o`;
`mergePatch a b` is the output of the external
`strategicpatch.CreateTwoWayMergePatchUsingLookupPatchMeta(a, b, meta)`
(modelled as a total symbolic operation); `nonObject` is a JSON document
that does not unmarshal into an `unstructured.Unstructured`. -/
inductive Bytes where
  | objJson (o : Obj) : Bytes
  | mergePatch (original modified : Bytes) : Bytes
  | nonObject (tag : String) : Bytes
deriving DecidableEq, Repr

/-- A value as stored in etcd.  `encoded mt o` is a well-formed payload of
media type `mt` encoding object `o`; `garbage` has no recognizable
encoding (media-type detection fails); `unknownKind` has a detectable
media type but no registered codec (conversion fails); `nonObjectDoc` is a
detectable, convertible document that is not a JSON object (unmarshalling
into `unstructured.Unstructured` fails). -/
inductive StoredValue where
  | encoded (mt : MediaType) (o : Obj) : StoredValue
  | garbage (tag : String) : StoredValue
  | unknownKind (mt : MediaType) (tag : String) : StoredValue
  | nonObjectDoc (mt : MediaType) (tag : String) : StoredValue
deriving DecidableEq, Repr

/-- KeyValue from `pkg/client`: key, optional value, optional previous
value (delete events carry `Value = none`). -/
structure KeyValue where
  Key : String
  Value : Option StoredValue
  PrevValue : Option StoredValue
deriving DecidableEq, Repr

/-- DetectMediaType from `pkg/encoding` (modelled on `StoredValue`):
inspects the payload and reports its media type, failing with
`unknownEncoding` when nothing matches. -/
def DetectMediaType : StoredValue → Except Err MediaType
  | .encoded mt _ => .ok mt
  | .garbage tag => .error (.unknownEncoding tag)
  | .unknownKind mt _ => .ok mt
  | .nonObjectDoc mt _ => .ok mt

/-- Convert from `pkg/encoding`: re-encode a payload from `inMediaType` to
the target media type by round-tripping through the typed object model.
Fails with `unknownKind` when no codec is registered for the payload. -/
def Convert (inMediaType outMediaType : MediaType) : StoredValue → Except Err Bytes
  | .encoded _ o => .ok (.objJson o)
  | .garbage tag => .error (.unknownEncoding tag)
  | .unknownKind _ tag => .error (.unknownKind tag)
  | .nonObjectDoc _ tag => .ok (.nonObject tag)

/-- UnmarshalJSON of `unstructured.Unstructured`: recover the object from
JSON bytes, failing on a non-object document. -/
def UnmarshalJSON : Bytes → Except Err Obj
  | .objJson o => .ok o
  | .mergePatch _ b => UnmarshalJSON b
  | .nonObject tag => .error (.unmarshalFailure tag)

/-- GroupVersionKind of an unstructured object
(`obj.GroupVersionKind()`). -/
def Obj.GroupVersionKind (o : Obj) : GroupVersionKind :=
  { Group := o.Group, Version := o.Version, Kind := o.Kind }

/-- SetResourceVersion("") followed by `json.Marshal`, as performed by
`ResourcePatch.SetContent` and `Loader.putData`; this is also the spec
glossary's "canonical JSON" (resourceVersion cleared). -/
def canonicalJSON (o : Obj) : Bytes :=
  .objJson { o with ResourceVersion := "" }

/-! ## Tracked-object cache (Go map modelled as an association list) -/

/-- The Saver's tracked cache `map[handle.ObjectRef]json.RawMessage`,
modelled as an association list with replace-on-insert. -/
def Track : Type := List (ObjectRef × Bytes)

instance : DecidableEq Track := by
  unfold Track; infer_instance

instance : Repr Track := by
  unfold Track; infer_instance

/-- Empty cache. -/
def Track.empty : Track := []

/-- Map lookup `track[key]`. -/
def Track.get : Track → ObjectRef → Option Bytes
  | [], _ => none
  | (k, v) :: rest, key => if k = key then some v else Track.get rest key

/-- Map insert `track[key] = v` (replaces an existing binding). -/
def Track.put : Track → ObjectRef → Bytes → Track
  | [], key, v => [(key, v)]
  | (k, w) :: rest, key, v =>
      if k = key then (k, v) :: rest else (k, w) :: Track.put rest key v

/-- Map deletion `delete(track, key)`. -/
def Track.del : Track → ObjectRef → Track
  | [], _ => []
  | (k, w) :: rest, key =>
      if k = key then rest else (k, w) :: Track.del rest key

/-! ## Interactive handle (`pkg/snapshot/handle`, part of the replay UI)

The `Speed` type's `Up` and `Down` methods are declared in a file that is
not part of the sources at hand; only their call sites are.  Modelled
from the spec: speed steps up and down by 1. -/

/-- Speed.Up.  Modelled from the spec: "step up/down by 1" (the `Speed`
type definition is missing from the sources; `Handle.SpeedUp` guards the
result with `sd <= 10`). -/
def Speed.up (s : Int) : Int := s + 1

/-- Speed.Down.  Modelled from the spec: "step up/down by 1" (the `Speed`
type definition is missing from the sources; `Handle.SpeedDown` guards
the result with `sd != 0`). -/
def Speed.down (s : Int) : Int := s - 1

/-- NewHandle: the initial speed stored by `NewHandle` is `Speed(1)`. -/
def newHandleSpeed : Int := 1

/-- Handle.SpeedUp: compute `sd := s.Up()`; store it only if `sd <= 10`,
returning the stored speed. -/
def Handle.speedUp (s : Int) : Int :=
  let sd := Speed.up s
  if sd ≤ 10 then sd else s

/-- Handle.SpeedDown: compute `sd := s.Down()`; store it only if
`sd != 0`, returning the stored speed. -/
def Handle.speedDown (s : Int) : Int :=
  let sd := Speed.down s
  if sd ≠ 0 then sd else s

/-- One user keystroke: `true` is SpeedUp (`U`), `false` is SpeedDown
(`D`). -/
def Handle.applyKey (s : Int) (up : Bool) : Int :=
  if up then Handle.speedUp s else Handle.speedDown s

/-- The speed after a finite sequence of SpeedUp/SpeedDown calls starting
from a fresh handle. -/
def Handle.runKeys (ops : List Bool) : Int :=
  ops.foldl Handle.applyKey newHandleSpeed

/-! ## get command target resolution (`pkg/cmd/get.go`) -/

/-- ParseGroupResource from `k8s.io/apimachinery` as described by the
spec: split a user token on the first `.` into (resource, group); an
unqualified token is (resource, ""). -/
def ParseGroupResource (s : String) : GroupResource :=
  match s.splitOn "." with
  | [] => { Group := "", Resource := s }
  | [r] => { Group := "", Resource := r }
  | r :: rest => { Group := String.intercalate "." rest, Resource := r }

/-- The flags of the get command that participate in target resolution. -/
structure GetFlags where
  Namespace : String
  AllNamespace : Bool
deriving Repr

/-- The namespace-resolution step of `getCommand` (get.go lines 86-99),
parameterized by the catalog lookup `correct` (the generated
`wellknown.CorrectGroupResource` table): starting from
`targetNamespace := flags.Namespace`, when the resource is found the
group/resource is replaced by the canonical one and the namespace filter
is cleared for cluster-scoped resources or `--all-namespace`, else
defaulted to "default" when the flag was omitted. -/
def getResolveTarget (correct : GroupResource → Option (GroupResource × Bool))
    (flags : GetFlags) (arg0 : String) : GroupResource × String :=
  let gr := ParseGroupResource arg0
  let targetGr := gr
  let targetNamespace := flags.Namespace
  match correct gr with
  | some (correctGr, namespaced) =>
      if ¬namespaced ∨ flags.AllNamespace then (correctGr, "")
      else if flags.Namespace = "" then (correctGr, "default")
      else (correctGr, targetNamespace)
  | none => (targetGr, targetNamespace)

/-! ## ResourcePatch (`pkg/apis/action/v1alpha1`, `pkg/snapshot/handle/api.go`) -/

/-- PatchMethod constants from `pkg/apis/action/v1alpha1`. -/
inductive PatchMethod where
  | create
  | patch
  | delete
deriving DecidableEq, Repr

/-- ResourcePatch: a timeline event.  `Template` is `none` when the Go
byte slice is nil (delete events). -/
structure ResourcePatch where
  Resource : GroupVersionResource
  Target : ObjectRef
  Method : PatchMethod
  Template : Option Bytes
  DurationNanosecond : Int
deriving DecidableEq, Repr

/-- ResourcePatch.SetContent (api.go lines 58-84): clear the object's
resourceVersion, marshal it, and either record a Create (no prior cache
entry) or a Patch (two-way strategic-merge patch from the prior entry),
caching the marshalled JSON in both cases.  Returns the method, the
template, and the updated cache. -/
def ResourcePatch.setContent (obj : Obj) (track : Track) :
    PatchMethod × Bytes × Track :=
  let key := KObj obj
  let modified := canonicalJSON obj
  match Track.get track key with
  | none => (.create, modified, Track.put track key modified)
  | some original =>
      (.patch, Bytes.mergePatch original modified, Track.put track key modified)

/-- ResourcePatch.SetDelete (api.go lines 50-55): method Delete, nil
template, and the cache entry dropped. -/
def ResourcePatch.setDelete (obj : Obj) (track : Track) : Track :=
  Track.del track (KObj obj)

/-! ## Snapshot saver and record engine (`pkg/snapshot`, Saver) -/

/-- The Go statement `value := kv.Value; if value == nil { value = kv.PrevValue }`. -/
def orPrev (value prevValue : Option StoredValue) : Option StoredValue :=
  match value with
  | some v => some v
  | none => prevValue

/-- DetectMediaType applied to a possibly-nil byte slice: a nil slice has
no recognizable encoding. -/
def DetectMediaTypeOpt : Option StoredValue → Except Err MediaType
  | some v => DetectMediaType v
  | none => .error (.unknownEncoding "nil")

/-- Convert applied to a possibly-nil byte slice. -/
def ConvertOpt (inMediaType outMediaType : MediaType) :
    Option StoredValue → Except Err Bytes
  | some v => Convert inMediaType outMediaType v
  | none => .error (.unknownEncoding "nil")

/-- The decode pipeline shared by `Saver.save` and
`Saver.buildResourcePatch`: detect the media type, convert to JSON, and
unmarshal into an unstructured object.  Returns the JSON bytes and the
object. -/
def decodeStored (value : Option StoredValue) : Except Err (Bytes × Obj) := do
  let inMediaType ← DetectMediaTypeOpt value
  let data ← ConvertOpt inMediaType .json value
  let obj ← UnmarshalJSON data
  return (data, obj)

/-- Saver.save (part_003 lines 65-97): decode one KV; skip silently when
the decoded name is empty; otherwise encode the object into the YAML
stream and insert the converted JSON into the tracked cache.  The result
is the updated cache and the documents written; a decode failure is
returned as an error. -/
def Saver.save (track : Track) (kv : KeyValue) :
    Except Err (Track × List Obj) := do
  let (data, obj) ← decodeStored (orPrev kv.Value kv.PrevValue)
  if obj.Name = "" then
    return (track, [])
  return (Track.put track (KObj obj) data, [obj])

/-- Saver.Save (part_003 lines 100-112): walk the key space, feeding every
KV to `save` through the client's `onResponse` callback.  The client
facade (`pkg/client`) is not among the sources; modelled from the spec:
each KV is delivered to the callback in order, and (per the Go convention
the call sites rely on) a non-nil error returned by the callback aborts
the walk and is returned from `Get`. -/
def Saver.SaveKVs (track : Track) : List KeyValue → Except Err (Track × List Obj)
  | [] => .ok (track, [])
  | kv :: rest => do
      let (track1, docs) ← Saver.save track kv
      let (track2, docs') ← Saver.SaveKVs track1 rest
      return (track2, docs ++ docs')

/-- The record-side state threaded through `Saver.buildResourcePatch`:
the tracked cache and the base time (`time.Time{}`, i.e. zero, modelled
as `none`). -/
structure SaverState where
  track : Track
  baseTime : Option Int
deriving DecidableEq, Repr

/-- The duration stored on a ResourcePatch: zero for the first captured
event (which establishes the base time), `now - baseTime` afterwards. -/
def recordDur (s : SaverState) (now : Int) : Int :=
  match s.baseTime with
  | none => 0
  | some bt => now - bt

/-- The base time after processing one event. -/
def recordBase (s : SaverState) (now : Int) : Option Int :=
  match s.baseTime with
  | none => some now
  | some bt => some bt

/-- Go's `strings.ToLower`, modelled as per-character lowercasing. -/
def goToLower (s : String) : String :=
  .mk (s.data.map Char.toLower)

/-- The GVR `buildResourcePatch` derives from the object's kind
(part_003 lines 139-144): the group and version of the GVK, and
`strings.ToLower(gvk.Kind) + "s"` as the resource ("Pluralize kind"). -/
def naiveGVR (o : Obj) : GroupVersionResource :=
  { Group := o.Group, Version := o.Version,
    Resource := goToLower o.Kind ++ "s" }

/-- Saver.buildResourcePatch (part_003 lines 114-177): decode the event's
value (previous value for deletes); return no patch when the name is
empty; derive the GVR by naive pluralization of the kind; set the target
and duration; then dispatch on the presence of `kv.Value` to SetContent
(create/patch) or SetDelete.  The strategic-merge-patch metadata lookup
(`PatchMetaFromStruct`) is an external call, modelled as total. -/
def Saver.buildResourcePatch (s : SaverState) (now : Int) (kv : KeyValue) :
    Except Err (Option ResourcePatch × SaverState) := do
  let (_, obj) ← decodeStored (orPrev kv.Value kv.PrevValue)
  if obj.Name = "" then
    return (none, s)
  let gvr := naiveGVR obj
  let dur := recordDur s now
  let base := recordBase s now
  match kv.Value with
  | some _ =>
      let (method, template, track') := ResourcePatch.setContent obj s.track
      return (some { Resource := gvr, Target := KObj obj, Method := method,
                     Template := some template, DurationNanosecond := dur },
              { track := track', baseTime := base })
  | none =>
      let track' := ResourcePatch.setDelete obj s.track
      return (some { Resource := gvr, Target := KObj obj, Method := .delete,
                     Template := none, DurationNanosecond := dur },
              { track := track', baseTime := base })

/-! ## Resource catalog (`pkg/wellknown`)

The generated table `pkg/wellknown/resources.go` is not among the
sources (only its generator is).  Modelled from the spec: a static table
of `{names: [canonical, singular, short-names], namespaced, group}`
entries; the entries below are standard Kubernetes discovery data for
the resources this development mentions. -/

/-- One catalog entry (the generator's `resource` struct). -/
structure WellknownResource where
  Names : List String
  Namespaced : Bool
  Group : String
deriving DecidableEq, Repr

/-- Modelled from the spec: a representative slice of the generated
catalog. -/
def wellknownResources : List WellknownResource :=
  [ { Names := ["endpoints", "ep"], Namespaced := true, Group := "" },
    { Names := ["services", "service", "svc"], Namespaced := true, Group := "" },
    { Names := ["namespaces", "namespace", "ns"], Namespaced := false, Group := "" },
    { Names := ["leases", "lease"], Namespaced := true,
      Group := "coordination.k8s.io" },
    { Names := ["networkpolicies", "networkpolicy", "netpol"],
      Namespaced := true, Group := "networking.k8s.io" } ]

/-- Modelled from the spec: `wellknown.CorrectGroupResource` resolves an
alias case-insensitively to the canonical plural (the first listed name)
plus the namespaced bit; the group is matched by equality when supplied
and left unconstrained when empty. -/
def CorrectGroupResource (gr : GroupResource) : Option (GroupResource × Bool) :=
  match wellknownResources.find? (fun r =>
      (r.Names.any (fun name => goToLower name = goToLower gr.Resource)) &&
      (gr.Group = "" || gr.Group = r.Group)) with
  | some r =>
      some ({ Group := r.Group, Resource := r.Names.headD "" }, r.Namespaced)
  | none => none

/-! ## Replay-side tracked cache (`pkg/snapshot/load.go`, Loader)

`Loader.tracksData` is
`map[schema.GroupVersionResource]map[handle.ObjectRef]json.RawMessage`:
a nested map keyed first by GVR, then by ObjectRef. -/

/-- The Loader's nested tracked cache, modelled as an association list of
per-GVR caches. -/
def Tracks : Type := List (GroupVersionResource × Track)

instance : DecidableEq Tracks := by
  unfold Tracks; infer_instance

instance : Repr Tracks := by
  unfold Tracks; infer_instance

/-- Nested lookup `l.tracksData[gvr][key]` (a missing GVR behaves as an
empty inner map). -/
def Tracks.get : Tracks → GroupVersionResource → ObjectRef → Option Bytes
  | [], _, _ => none
  | (g, tr) :: rest, gvr, key =>
      if g = gvr then Track.get tr key else Tracks.get rest gvr key

/-- Nested insert `l.tracksData[gvr][key] = v`, initializing the inner
map when the GVR is missing (as `applyResource`/`applyResourcePatch`
do). -/
def Tracks.put : Tracks → GroupVersionResource → ObjectRef → Bytes → Tracks
  | [], gvr, key, v => [(gvr, [(key, v)])]
  | (g, tr) :: rest, gvr, key, v =>
      if g = gvr then (g, Track.put tr key v) :: rest
      else (g, tr) :: Tracks.put rest gvr key v

/-- Nested deletion `delete(l.tracksData[gvr], key)` (a no-op on a
missing GVR, as deleting from a nil Go map is). -/
def Tracks.del : Tracks → GroupVersionResource → ObjectRef → Tracks
  | [], _, _ => []
  | (g, tr) :: rest, gvr, key =>
      if g = gvr then (g, Track.del tr key) :: rest
      else (g, tr) :: Tracks.del rest gvr key

/-- The tracked-cache effect of `Loader.putData` (load.go lines 293-323):
clear the object's resourceVersion, marshal it to JSON, and store that
JSON under `tracksData[gvr][KObj(obj)]`.  The client `put` and the
store-media-type conversion have no cache effect and are not modelled
here. -/
def Loader.putDataTracks (tracks : Tracks) (gvr : GroupVersionResource)
    (obj : Obj) : Tracks :=
  Tracks.put tracks gvr (KObj obj) (canonicalJSON obj)

/-! ## Printers (`pkg/printer`)

The writer is modelled as an output list (write errors to the terminal
are not modelled); each `Print` call returns the chunks it writes. -/

/-- One chunk written by a printer.  `diagnostic` is the yaml printer's
commented block `---\n# {key} | {marker} | {error}\n# {raw-value}\n`
(its fields mirror the format-string arguments, with `marker` the
literal "raw"); `yamlDoc` is the success header-plus-document
`---\n# {key} | {media-type}\n{data}\n`; `jsonData` is the json
printer's raw write of the converted bytes. -/
inductive PrintOut where
  | diagnostic (key marker : String) (err : Err) (raw : Option StoredValue)
  | yamlDoc (key : String) (mt : MediaType) (data : Bytes)
  | jsonData (data : Bytes)
deriving DecidableEq, Repr

/-- yamlPrinter.Print (part_001 lines 33-56): detect and convert the
value to YAML; on either failure write the commented diagnostic and
return nil; on success write the header and the document. -/
def yamlPrinter.Print (kv : KeyValue) : Except Err (List PrintOut) :=
  match DetectMediaTypeOpt kv.Value with
  | .error e => .ok [.diagnostic kv.Key "raw" e kv.Value]
  | .ok inMediaType =>
      match ConvertOpt inMediaType .yaml kv.Value with
      | .error e => .ok [.diagnostic kv.Key "raw" e kv.Value]
      | .ok data => .ok [.yamlDoc kv.Key inMediaType data]

/-- jsonPrinter.Print (printer_json.go lines 31-46): detect and convert
the value to JSON, returning any failure as an error; on success write
the converted bytes. -/
def jsonPrinter.Print (kv : KeyValue) : Except Err (List PrintOut) := do
  let inMediaType ← DetectMediaTypeOpt kv.Value
  let data ← ConvertOpt inMediaType .json kv.Value
  return [.jsonData data]

/-! ## Replay scheduler (`pkg/snapshot/load.go`, handleResourcePatch) -/

/-- One second in `time.Duration` nanoseconds. -/
def nanosPerSecond : Int := 1000000000

/-- The sequence of (pre-scaling) sleep steps taken by the pacing loop
`for d > 0 ... step := min(1s, d); d -= step; sleep(step / speed)`: each
entry is one `step` value; the loop divides the wall-clock sleep by the
speed, which does not change the steps recorded here. -/
def sleepSteps (d : Int) : List Int :=
  if h : 0 < d then
    (if nanosPerSecond > d then d else nanosPerSecond) ::
      sleepSteps (d - (if nanosPerSecond > d then d else nanosPerSecond))
  else []
termination_by d.toNat
decreasing_by
  simp only [nanosPerSecond] at *
  split <;> omega

/-- The observable outcome of one `handleResourcePatch` call.
`durSched` is `*dur` after the out-of-order switch (before the
post-apply compensation); `durAfter` includes the compensation
`*dur += past * speed` for an apply that took `past` nanoseconds;
`sleeps` is the list of pacing steps; `applied` records that the patch
was applied (which happens unconditionally). -/
structure SchedResult where
  durSched : Int
  durAfter : Int
  speedAfter : Int
  sleeps : List Int
  speedDowned : Bool
  applied : Bool
deriving DecidableEq, Repr

/-- Loader.handleResourcePatch (load.go lines 177-234): compute
`d := t - *dur`; if `d > 0` advance `*dur = t` and pace the sleep loop
over `d`; if `d < -1s` and an interactive handle is attached, call
SpeedDown and advance `*dur = t`, sleeping nothing; otherwise treat the
event as coincident (no sleep, `*dur` unchanged); then apply the patch
and add the apply duration (scaled by the speed when a handle is
attached) back to `*dur`.  Pause polling only affects wall-clock time
and is not modelled.  The Go float64 scaling of durations is modelled as
exact integer arithmetic. -/
def Loader.handleResourcePatch (hasHandle : Bool) (speed : Int)
    (t dur past : Int) : SchedResult :=
  let d0 := t - dur
  let (dur1, speed1, downed) :=
    if 0 < d0 then (t, speed, false)
    else if d0 < -nanosPerSecond then
      (if hasHandle then (t, Handle.speedDown speed, true)
       else (dur, speed, false))
    else (dur, speed, false)
  let sleeps := sleepSteps (if 0 < d0 then d0 else 0)
  let dur2 :=
    if 0 < past then dur1 + (if hasHandle then past * speed1 else past)
    else dur1
  { durSched := dur1, durAfter := dur2, speedAfter := speed1,
    sleeps := sleeps, speedDowned := downed, applied := true }

/-- A concrete pod object used by witnesses below. -/
def podA : Obj :=
  { Kind := "Pod", Group := "", Version := "v1", Name := "a",
    Namespace := "default", ResourceVersion := "7", Body := "x" }

/-- The canonical (resourceVersion-cleared) form of `podA`. -/
def podACleared : Obj := { podA with ResourceVersion := "" }

/-- The `podA` create event as delivered by the snapshot walk. -/
def podAKV : KeyValue :=
  { Key := "/registry/pods/default/a",
    Value := some (.encoded .protobuf podA), PrevValue := none }

/-- A later watch event for `podA`, now stored as JSON. -/
def podAKVJson : KeyValue :=
  { Key := "/registry/pods/default/a",
    Value := some (.encoded .json podA), PrevValue := none }

/-- A concrete core/v1 Endpoints object: its catalog plural "endpoints"
differs from the naive pluralization "endpointss". -/
def endpointsObj : Obj :=
  { Kind := "Endpoints", Group := "", Version := "v1", Name := "kubernetes",
    Namespace := "default", ResourceVersion := "1", Body := "subsets" }

/-- A corrupt stored value whose media type cannot be detected. -/
def corruptKV : KeyValue :=
  { Key := "/registry/broken", Value := some (.garbage "junk"),
    PrevValue := none }

/-- A well-formed stored value following the corrupt one. -/
def goodKV : KeyValue :=
  { Key := "/registry/pods/default/a",
    Value := some (.encoded .protobuf podA), PrevValue := none }

/-- A concrete service-kind object sharing name and namespace with
`podA`'s counterpart below. -/
def svcX : Obj :=
  { Kind := "Service", Group := "", Version := "v1", Name := "x",
    Namespace := "default", ResourceVersion := "2", Body := "spec" }

/-- A concrete pod object sharing name and namespace with `svcX`. -/
def podX : Obj :=
  { Kind := "Pod", Group := "", Version := "v1", Name := "x",
    Namespace := "default", ResourceVersion := "1", Body := "spec" }

/-- A stored value with a detectable media type but no registered codec. -/
def unknownKindKV : KeyValue :=
  { Key := "/registry/custom", Value := some (.unknownKind .json "mystery"),
    PrevValue := none }

/-! ## Replay heap and reorder window (`pkg/snapshot/load.go`, Replay)

The heap (`pkg/utils/heap`) is not among the sources; modelled from the
spec: a minimum-priority queue keyed by `durationNanosecond`, represented
as a list kept sorted by key (push inserts in order, pop takes the
head). -/

/-- Ordering of patches by elapsed duration. -/
def durLE (a b : ResourcePatch) : Prop :=
  a.DurationNanosecond ≤ b.DurationNanosecond

instance : DecidableRel durLE := by
  unfold durLE; infer_instance

/-- Heap push: stable insertion into the duration-sorted list. -/
def Heap.push (rp : ResourcePatch) :
    List ResourcePatch → List ResourcePatch
  | [] => [rp]
  | y :: ys =>
      if y.DurationNanosecond ≤ rp.DurationNanosecond then y :: Heap.push rp ys
      else rp :: y :: ys

/-- One YAML document consumed by `Loader.Replay` (load.go lines
132-155): a decoded-and-converted ResourcePatch; a document the decoder
failed on (logged, skipped); a document of an unexpected kind or
apiVersion (logged, skipped); or a right-kind document that
`yaml.Convert` fails on, which `Replay` returns as an error. -/
inductive ReplayDoc where
  | patch (rp : ResourcePatch)
  | badDoc (tag : String)
  | otherKind (tag : String)
  | convertFails (tag : String)
deriving DecidableEq, Repr

/-- The sequence of ResourcePatches `Loader.Replay` (load.go lines
127-175) hands to `handleResourcePatch`, given the decoded document
stream and the current heap: each patch is pushed; when the heap size
reaches 1024 the minimum is popped and handed over; at EOF the heap is
flushed in priority order; a fatal convert error aborts the loop (no
flush). -/
def Loader.replayOutputs :
    List ReplayDoc → List ResourcePatch → List ResourcePatch
  | [], h => h
  | .badDoc _ :: docs, h => Loader.replayOutputs docs h
  | .otherKind _ :: docs, h => Loader.replayOutputs docs h
  | .convertFails _ :: _, _ => []
  | .patch rp :: docs, h =>
      if 1024 ≤ (Heap.push rp h).length then
        match Heap.push rp h with
        | [] => Loader.replayOutputs docs []
        | top :: rest => top :: Loader.replayOutputs docs rest
      else Loader.replayOutputs docs (Heap.push rp h)

/-- The ResourcePatches a document stream pushes into the heap (the
stream of decoded events, cut short by a fatal convert error). -/
def pushedPatches : List ReplayDoc → List ResourcePatch
  | [] => []
  | .patch rp :: docs => rp :: pushedPatches docs
  | .badDoc _ :: docs => pushedPatches docs
  | .otherKind _ :: docs => pushedPatches docs
  | .convertFails _ :: _ => []

/-- Stable order on positions of the key list `ds`: position `i` comes
before `j` in a stable sort when its key is smaller, or equal with `i`
earlier. -/
def stablyBefore (ds : List Int) (i j : Nat) : Prop :=
  ds.getD i 0 < ds.getD j 0 ∨ (ds.getD i 0 = ds.getD j 0 ∧ i < j)

instance (ds : List Int) (i j : Nat) : Decidable (stablyBefore ds i j) := by
  unfold stablyBefore; infer_instance

/-- The stable sorted position of index `i` in `ds`: the number of
positions that come before it in a stable sort. -/
def sortedPos (ds : List Int) (i : Nat) : Nat :=
  ((Finset.range ds.length).filter (fun j => stablyBefore ds j i)).card

/-- A ResourcePatch at elapsed duration `k`, used by witnesses. -/
def rpAt (k : Int) : ResourcePatch :=
  { Resource := { Group := "", Version := "v1", Resource := "pods" },
    Target := { Name := "a", Namespace := "default" },
    Method := .create, Template := none, DurationNanosecond := k }

/-! ## Helper lemmas -/

theorem Track.get_put (t : Track) (k : ObjectRef) (v : Bytes) :
    Track.get (Track.put t k v) k = some v := by
  induction t with
  | nil => simp [Track.put, Track.get]
  | cons hd rest ih =>
      obtain ⟨a, w⟩ := hd
      by_cases h : a = k
      · simp [Track.put, Track.get, h]
      · simp [Track.put, Track.get, h, ih]

theorem Tracks.get_put_self (t : Tracks) (gvr : GroupVersionResource)
    (k : ObjectRef) (v : Bytes) :
    Tracks.get (Tracks.put t gvr k v) gvr k = some v := by
  induction t with
  | nil => simp [Tracks.put, Tracks.get, Track.put, Track.get]
  | cons hd rest ih =>
      obtain ⟨g, tr⟩ := hd
      by_cases h : g = gvr
      · simp [Tracks.put, Tracks.get, h, Track.get_put]
      · simp [Tracks.put, Tracks.get, h, ih]

theorem Tracks.get_put_ne (t : Tracks) (gvr gvr' : GroupVersionResource)
    (k k' : ObjectRef) (v : Bytes) (hne : gvr' ≠ gvr) :
    Tracks.get (Tracks.put t gvr' k v) gvr k' = Tracks.get t gvr k' := by
  induction t with
  | nil => simp [Tracks.put, Tracks.get, hne]
  | cons hd rest ih =>
      obtain ⟨g, tr⟩ := hd
      by_cases h : g = gvr'
      · subst h
        simp [Tracks.put, Tracks.get, hne]
      · by_cases h2 : g = gvr
        · subst h2
          simp [Tracks.put, Tracks.get, Ne.symm hne]
        · simp [Tracks.put, Tracks.get, h, h2, ih]

theorem sleepSteps_nonpos (d : Int) (h : ¬ 0 < d) : sleepSteps d = [] := by
  rw [sleepSteps, dif_neg h]

theorem sleepSteps_sum (d : Int) (hd : 0 ≤ d) : (sleepSteps d).sum = d := by
  induction d using sleepSteps.induct with
  | case1 d h ih =>
      rw [sleepSteps, dif_pos h]
      by_cases hc : nanosPerSecond > d
      · rw [if_pos hc, List.sum_cons, show d - d = 0 by ring,
          sleepSteps_nonpos 0 (by omega)]
        simp
      · rw [dif_neg hc] at ih
        rw [if_neg hc, List.sum_cons,
          ih (by simp only [nanosPerSecond] at *; omega)]
        ring
  | case2 d h =>
      rw [sleepSteps, dif_neg h]
      simp
      omega

theorem sleepSteps_pos (d : Int) (h : 0 < d) : sleepSteps d ≠ [] := by
  rw [sleepSteps, dif_pos h]
  simp

/-- Helper: a value-present event whose object misses the tracked cache
builds a Create patch and caches the canonical JSON. -/
theorem buildRP_miss (s : SaverState) (now : Int) (kv : KeyValue)
    (mt : MediaType) (obj : Obj) (hname : obj.Name ≠ "")
    (hv : kv.Value = some (.encoded mt obj))
    (htrack : Track.get s.track (KObj obj) = none) :
    Saver.buildResourcePatch s now kv =
      .ok (some { Resource := naiveGVR obj, Target := KObj obj,
                  Method := .create, Template := some (canonicalJSON obj),
                  DurationNanosecond := recordDur s now },
           { track := Track.put s.track (KObj obj) (canonicalJSON obj),
             baseTime := recordBase s now }) := by
  simp [Saver.buildResourcePatch, decodeStored, orPrev, hv,
    DetectMediaTypeOpt, DetectMediaType, ConvertOpt, Convert,
    UnmarshalJSON, hname, ResourcePatch.setContent, htrack,
    Bind.bind, Except.bind, Pure.pure, Except.pure]

/-- Helper: a value-present event whose object hits the tracked cache
builds a Patch whose template is the two-way merge patch from the cached
JSON to the current canonical JSON, and replaces the cache entry. -/
theorem buildRP_hit (s : SaverState) (now : Int) (kv : KeyValue)
    (mt : MediaType) (obj : Obj) (original : Bytes) (hname : obj.Name ≠ "")
    (hv : kv.Value = some (.encoded mt obj))
    (htrack : Track.get s.track (KObj obj) = some original) :
    Saver.buildResourcePatch s now kv =
      .ok (some { Resource := naiveGVR obj, Target := KObj obj,
                  Method := .patch,
                  Template := some (.mergePatch original (canonicalJSON obj)),
                  DurationNanosecond := recordDur s now },
           { track := Track.put s.track (KObj obj) (canonicalJSON obj),
             baseTime := recordBase s now }) := by
  simp [Saver.buildResourcePatch, decodeStored, orPrev, hv,
    DetectMediaTypeOpt, DetectMediaType, ConvertOpt, Convert,
    UnmarshalJSON, hname, ResourcePatch.setContent, htrack,
    Bind.bind, Except.bind, Pure.pure, Except.pure]

/-- Helper: a value-absent event builds a Delete patch with a nil
template and drops the cache entry. -/
theorem buildRP_del (s : SaverState) (now : Int) (kv : KeyValue)
    (mt : MediaType) (obj : Obj) (hname : obj.Name ≠ "")
    (hv : kv.Value = none) (hprev : kv.PrevValue = some (.encoded mt obj)) :
    Saver.buildResourcePatch s now kv =
      .ok (some { Resource := naiveGVR obj, Target := KObj obj,
                  Method := .delete, Template := none,
                  DurationNanosecond := recordDur s now },
           { track := Track.del s.track (KObj obj),
             baseTime := recordBase s now }) := by
  simp [Saver.buildResourcePatch, decodeStored, orPrev, hv, hprev,
    DetectMediaTypeOpt, DetectMediaType, ConvertOpt, Convert,
    UnmarshalJSON, hname, ResourcePatch.setDelete,
    Bind.bind, Except.bind, Pure.pure, Except.pure]

/-- Helper: `Saver.save` on a decodable value with a non-empty name
encodes the object and caches the converted JSON (resourceVersion
intact). -/
theorem saver_save_ok (track : Track) (kv : KeyValue) (mt : MediaType)
    (obj : Obj) (hname : obj.Name ≠ "")
    (hv : orPrev kv.Value kv.PrevValue = some (.encoded mt obj)) :
    Saver.save track kv =
      .ok (Track.put track (KObj obj) (.objJson obj), [obj]) := by
  simp [Saver.save, decodeStored, hv,
    DetectMediaTypeOpt, DetectMediaType, ConvertOpt, Convert,
    UnmarshalJSON, hname, Bind.bind, Except.bind, Pure.pure, Except.pure]

/-- Helper: unfolding one step of the snapshot walk when the first KV
saves successfully. -/
theorem saveKVs_cons_eq (track : Track) (kv : KeyValue)
    (rest : List KeyValue) (track' : Track) (docs : List Obj)
    (h : Saver.save track kv = .ok (track', docs)) :
    Saver.SaveKVs track (kv :: rest) =
      (Saver.SaveKVs track' rest).map (fun p => (p.1, docs ++ p.2)) := by
  simp only [Saver.SaveKVs, h, Bind.bind, Except.bind]
  rcases Saver.SaveKVs track' rest with e | ⟨t2, d2⟩ <;> rfl

/-- C3: for every record-side watch event whose decoded object has a
non-empty name: value present with no prior cache entry gives method
Create with the full canonical JSON (resourceVersion cleared) as template
and caches that JSON; value present with a prior entry gives method Patch
with the two-way strategic-merge patch from the cached JSON to the
current canonical JSON and replaces the cache entry; an absent value
gives method Delete with an empty template and removes the cache
entry. -/
theorem record_event_methods (s : SaverState) (now : Int) (kv : KeyValue)
    (mt : MediaType) (obj : Obj) (hname : obj.Name ≠ "") :
    (kv.Value = some (.encoded mt obj) →
      Track.get s.track (KObj obj) = none →
      Saver.buildResourcePatch s now kv =
        .ok (some { Resource := naiveGVR obj, Target := KObj obj,
                    Method := .create, Template := some (canonicalJSON obj),
                    DurationNanosecond := recordDur s now },
             { track := Track.put s.track (KObj obj) (canonicalJSON obj),
               baseTime := recordBase s now })) ∧
    (∀ original, kv.Value = some (.encoded mt obj) →
      Track.get s.track (KObj obj) = some original →
      Saver.buildResourcePatch s now kv =
        .ok (some { Resource := naiveGVR obj, Target := KObj obj,
                    Method := .patch,
                    Template := some (.mergePatch original (canonicalJSON obj)),
                    DurationNanosecond := recordDur s now },
             { track := Track.put s.track (KObj obj) (canonicalJSON obj),
               baseTime := recordBase s now })) ∧
    (kv.Value = none → kv.PrevValue = some (.encoded mt obj) →
      Saver.buildResourcePatch s now kv =
        .ok (some { Resource := naiveGVR obj, Target := KObj obj,
                    Method := .delete, Template := none,
                    DurationNanosecond := recordDur s now },
             { track := Track.del s.track (KObj obj),
               baseTime := recordBase s now })) := by
  refine ⟨?_, ?_, ?_⟩
  · intro hv htrack
    exact buildRP_miss s now kv mt obj hname hv htrack
  · intro original hv htrack
    exact buildRP_hit s now kv mt obj original hname hv htrack
  · intro hv hprev
    exact buildRP_del s now kv mt obj hname hv hprev

/-- C3 witness: a fresh cache sees a create that caches the canonical
JSON; then a delete event for the same object drops the entry. -/
theorem record_event_methods_witness :
    (Saver.buildResourcePatch { track := [], baseTime := none } 0
        { Key := "/registry/pods/default/a",
          Value := some (.encoded .protobuf podA),
          PrevValue := none } =
      .ok (some { Resource := { Group := "", Version := "v1",
                                Resource := "pods" },
                  Target := { Name := "a", Namespace := "default" },
                  Method := .create,
                  Template := some (.objJson podACleared),
                  DurationNanosecond := 0 },
           { track := [(KObj podA, .objJson podACleared)],
             baseTime := some 0 })) ∧
    (Saver.buildResourcePatch
        { track := [(KObj podA, .objJson podACleared)], baseTime := some 0 } 5
        { Key := "/registry/pods/default/a",
          Value := none,
          PrevValue := some (.encoded .protobuf podA) } =
      .ok (some { Resource := { Group := "", Version := "v1",
                                Resource := "pods" },
                  Target := { Name := "a", Namespace := "default" },
                  Method := .delete, Template := none,
                  DurationNanosecond := 5 },
           { track := [], baseTime := some 0 })) := by
  constructor
  · have h := (record_event_methods { track := [], baseTime := none } 0
      { Key := "/registry/pods/default/a",
        Value := some (.encoded .protobuf podA), PrevValue := none }
      .protobuf podA (by decide)).1 rfl rfl
    exact h.trans (by rfl)
  · have h := (record_event_methods
      { track := [(KObj podA, .objJson podACleared)], baseTime := some 0 } 5
      { Key := "/registry/pods/default/a",
        Value := none, PrevValue := some (.encoded .protobuf podA) }
      .protobuf podA (by decide)).2.2 rfl rfl
    exact h.trans (by rfl)

/-- C9 counterexample: `Saver.save` caches the converted JSON with its
resourceVersion intact ("7"), which is not the canonical JSON (the
glossary's canonical JSON has resourceVersion cleared). -/
theorem save_cache_keeps_resource_version :
    Saver.save Track.empty
      { Key := "/registry/pods/default/a",
        Value := some (.encoded .protobuf podA), PrevValue := none } =
      .ok ([(KObj podA, .objJson podA)], [podA]) ∧
    Bytes.objJson podA ≠ canonicalJSON podA := by
  exact ⟨rfl, by decide⟩

/-- C9 amended: `Saver.save` inserts every successfully decoded snapshot
object with a non-empty name into the tracked cache keyed by
(name, namespace), with the converted JSON (resourceVersion preserved,
not cleared) as the value; consequently the first watch event during
Record for an object already captured in the snapshot produces a
ResourcePatch with method Patch rather than Create. -/
theorem save_then_record_patches (track : Track) (kv kv' : KeyValue)
    (mt mt' : MediaType) (obj obj' : Obj) (bt : Option Int) (now : Int)
    (hname : obj.Name ≠ "") (hname' : obj'.Name ≠ "")
    (hv : orPrev kv.Value kv.PrevValue = some (.encoded mt obj))
    (hv' : kv'.Value = some (.encoded mt' obj'))
    (hsame : KObj obj' = KObj obj) :
    Saver.save track kv =
      .ok (Track.put track (KObj obj) (.objJson obj), [obj]) ∧
    Saver.buildResourcePatch
        ⟨Track.put track (KObj obj) (.objJson obj), bt⟩ now kv' =
      .ok (some { Resource := naiveGVR obj', Target := KObj obj',
                  Method := .patch,
                  Template := some
                    (.mergePatch (.objJson obj) (canonicalJSON obj')),
                  DurationNanosecond :=
                    recordDur ⟨Track.put track (KObj obj) (.objJson obj),
                               bt⟩ now },
           ⟨Track.put (Track.put track (KObj obj) (.objJson obj))
              (KObj obj') (canonicalJSON obj'),
            recordBase ⟨Track.put track (KObj obj) (.objJson obj),
                        bt⟩ now⟩) := by
  constructor
  · exact saver_save_ok track kv mt obj hname hv
  · refine buildRP_hit _ now kv' mt' obj' (.objJson obj) hname' hv' ?_
    rw [hsame]
    exact Track.get_put track (KObj obj) (.objJson obj)

/-- C9 amended witness: saving a pod with resourceVersion "7" caches its
stored JSON, and the next watch event for the same pod records a Patch
whose template diffs the cached JSON against the new canonical JSON. -/
theorem save_then_record_patches_witness :
    Saver.save [] podAKV = .ok ([(KObj podA, .objJson podA)], [podA]) ∧
    Saver.buildResourcePatch
        ⟨Track.put [] (KObj podA) (.objJson podA), none⟩ 3 podAKVJson =
      .ok (some { Resource := { Group := "", Version := "v1",
                                Resource := "pods" },
                  Target := { Name := "a", Namespace := "default" },
                  Method := .patch,
                  Template := some
                    (.mergePatch (.objJson podA) (.objJson podACleared)),
                  DurationNanosecond := 0 },
           ⟨[(KObj podA, .objJson podACleared)], some 3⟩) := by
  have h := save_then_record_patches [] podAKV podAKVJson
    .protobuf .json podA podA none 3 (by decide) (by decide) rfl rfl rfl
  exact ⟨h.1, h.2.trans (by rfl)⟩

/-- C1 counterexample: for a watch event carrying an Endpoints object,
the emitted ResourcePatch's resource field is "endpointss" (naive
pluralization) while the resource catalog's canonical plural for kind
Endpoints is "endpoints". -/
theorem record_gvr_ignores_catalog :
    (Saver.buildResourcePatch { track := [], baseTime := none } 0
        { Key := "/registry/services/endpoints/default/kubernetes",
          Value := some (.encoded .protobuf endpointsObj),
          PrevValue := none }).map (fun p => p.1.map (·.Resource.Resource)) =
      .ok (some "endpointss") ∧
    CorrectGroupResource { Group := "", Resource := "Endpoints" } =
      some ({ Group := "", Resource := "endpoints" }, true) ∧
    ("endpointss" : String) ≠ "endpoints" := by
  exact ⟨rfl, by decide, by decide⟩

/-- C1 amended: the emitted ResourcePatch's target GVR always carries
`strings.ToLower(kind) + "s"` as its resource field; the resource
catalog is not consulted by `buildResourcePatch`. -/
theorem record_gvr_is_naive_plural (s : SaverState) (now : Int)
    (kv : KeyValue) (mt : MediaType) (obj : Obj) (hname : obj.Name ≠ "")
    (hv : orPrev kv.Value kv.PrevValue = some (.encoded mt obj)) :
    (Saver.buildResourcePatch s now kv).map (fun p => p.1.map (·.Resource)) =
      .ok (some (naiveGVR obj)) ∧
    (naiveGVR obj).Resource = goToLower obj.Kind ++ "s" := by
  refine ⟨?_, rfl⟩
  rcases hval : kv.Value with _ | v
  · have hprev : kv.PrevValue = some (.encoded mt obj) := by
      simpa [orPrev, hval] using hv
    rw [buildRP_del s now kv mt obj hname hval hprev]
    rfl
  · have hveq : v = .encoded mt obj := by
      have h2 := hv
      rw [hval] at h2
      simpa [orPrev] using h2
    subst hveq
    have hv2 : kv.Value = some (.encoded mt obj) := hval
    rcases htr : Track.get s.track (KObj obj) with _ | original
    · rw [buildRP_miss s now kv mt obj hname hv2 htr]
      rfl
    · rw [buildRP_hit s now kv mt obj original hname hv2 htr]
      rfl

/-- C1 amended witness: the Endpoints event yields resource
"endpointss". -/
theorem record_gvr_is_naive_plural_witness :
    (Saver.buildResourcePatch { track := [], baseTime := none } 0
        { Key := "/registry/services/endpoints/default/kubernetes",
          Value := some (.encoded .protobuf endpointsObj),
          PrevValue := none }).map (fun p => p.1.map (·.Resource)) =
      .ok (some (naiveGVR endpointsObj)) ∧
    (naiveGVR endpointsObj).Resource = goToLower endpointsObj.Kind ++ "s" :=
  record_gvr_is_naive_plural { track := [], baseTime := none } 0
    { Key := "/registry/services/endpoints/default/kubernetes",
      Value := some (.encoded .protobuf endpointsObj), PrevValue := none }
    .protobuf endpointsObj (by decide) rfl

/-- C2 counterexample: a snapshot walk over a corrupt object followed by
a decodable one returns the decode error from Save instead of skipping
the corrupt object; the decodable object would have been saved fine on
its own. -/
theorem save_aborts_on_corrupt_object :
    Saver.SaveKVs Track.empty [corruptKV, goodKV] =
      .error (.unknownEncoding "junk") ∧
    Saver.save Track.empty goodKV =
      .ok ([(KObj podA, .objJson podA)], [podA]) := by
  exact ⟨rfl, rfl⟩

/-- C2 amended: each of the three per-object decode failures (media type
undetectable, conversion failure, JSON unmarshal failure) makes
`Saver.save` return the error rather than log and skip, and an error
returned by `save` aborts the snapshot walk and is returned from Save. -/
theorem save_decode_failures_abort :
    (∀ (track : Track) (key : String) (pv : Option StoredValue)
        (tag : String),
      Saver.save track
          { Key := key, Value := some (.garbage tag), PrevValue := pv } =
        .error (.unknownEncoding tag)) ∧
    (∀ (track : Track) (key : String) (pv : Option StoredValue)
        (mt : MediaType) (tag : String),
      Saver.save track
          { Key := key, Value := some (.unknownKind mt tag),
            PrevValue := pv } =
        .error (.unknownKind tag)) ∧
    (∀ (track : Track) (key : String) (pv : Option StoredValue)
        (mt : MediaType) (tag : String),
      Saver.save track
          { Key := key, Value := some (.nonObjectDoc mt tag),
            PrevValue := pv } =
        .error (.unmarshalFailure tag)) ∧
    (∀ (track : Track) (kv : KeyValue) (rest : List KeyValue) (e : Err),
      Saver.save track kv = .error e →
      Saver.SaveKVs track (kv :: rest) = .error e) := by
  refine ⟨fun _ _ _ _ => rfl, fun _ _ _ _ _ => rfl, fun _ _ _ _ _ => rfl,
    ?_⟩
  intro track kv rest e h
  simp [Saver.SaveKVs, h, Bind.bind, Except.bind]

/-- C2 amended witness: the corrupt value aborts a walk that still had
the decodable object pending. -/
theorem save_decode_failures_abort_witness :
    Saver.SaveKVs Track.empty [corruptKV, goodKV] =
      .error (.unknownEncoding "junk") :=
  save_decode_failures_abort.2.2.2 Track.empty corruptKV [goodKV]
    (.unknownEncoding "junk") rfl

/-- C7 counterexample: on the record side the Saver's tracked cache is
keyed only by (name, namespace); saving a Pod and then a Service that
share name "x" and namespace "default" leaves a single cache entry
holding the Service JSON — the Pod entry was overwritten although the
two objects have different GVRs. -/
theorem record_cache_overwrites_across_gvrs :
    Saver.SaveKVs Track.empty
      [ { Key := "/registry/pods/default/x",
          Value := some (.encoded .protobuf podX), PrevValue := none },
        { Key := "/registry/services/specs/default/x",
          Value := some (.encoded .protobuf svcX), PrevValue := none } ] =
      .ok ([(KRef "default" "x", .objJson svcX)], [podX, svcX]) ∧
    naiveGVR podX ≠ naiveGVR svcX ∧
    Bytes.objJson svcX ≠ .objJson podX := by
  exact ⟨rfl, by decide, by decide⟩

/-- C7 amended: on the replay side the Loader's tracked cache is keyed
first by GVR and then by (name, namespace), so two objects of different
GVRs sharing a name and namespace occupy distinct entries; on the record
side the Saver's cache is keyed by (name, namespace) only, so such
objects share a single entry and the later write wins. -/
theorem tracked_cache_keying (tracks : Tracks)
    (gvr1 gvr2 : GroupVersionResource) (o1 o2 : Obj) (track : Track)
    (kv1 kv2 : KeyValue) (mt1 mt2 : MediaType)
    (hgvr : gvr1 ≠ gvr2) (hkey : KObj o2 = KObj o1)
    (hv1 : orPrev kv1.Value kv1.PrevValue = some (.encoded mt1 o1))
    (hv2 : orPrev kv2.Value kv2.PrevValue = some (.encoded mt2 o2))
    (hn1 : o1.Name ≠ "") (hn2 : o2.Name ≠ "") :
    (Tracks.get (Loader.putDataTracks (Loader.putDataTracks tracks gvr1 o1)
        gvr2 o2) gvr2 (KObj o2) = some (canonicalJSON o2)) ∧
    (Tracks.get (Loader.putDataTracks (Loader.putDataTracks tracks gvr1 o1)
        gvr2 o2) gvr1 (KObj o1) = some (canonicalJSON o1)) ∧
    (Saver.SaveKVs track [kv1, kv2] =
      .ok (Track.put (Track.put track (KObj o1) (.objJson o1)) (KObj o2)
        (.objJson o2), [o1, o2])) ∧
    (Track.get (Track.put (Track.put track (KObj o1) (.objJson o1))
        (KObj o2) (.objJson o2)) (KObj o1) = some (.objJson o2)) := by
  refine ⟨?_, ?_, ?_, ?_⟩
  · exact Tracks.get_put_self _ gvr2 (KObj o2) (canonicalJSON o2)
  · rw [Loader.putDataTracks, Tracks.get_put_ne _ gvr1 gvr2 (KObj o2)
      (KObj o1) (canonicalJSON o2) (Ne.symm hgvr)]
    exact Tracks.get_put_self tracks gvr1 (KObj o1) (canonicalJSON o1)
  · rw [saveKVs_cons_eq track kv1 [kv2] _ _
      (saver_save_ok track kv1 mt1 o1 hn1 hv1)]
    rw [saveKVs_cons_eq _ kv2 [] _ _ (saver_save_ok _ kv2 mt2 o2 hn2 hv2)]
    rfl
  · rw [← hkey, Track.get_put]

/-- C7 amended witness: pods/x and services/x stay separate on the replay
side; on the record side saving podX then svcX leaves the svcX JSON under
the shared (name, namespace) key. -/
theorem tracked_cache_keying_witness :
    (Tracks.get (Loader.putDataTracks (Loader.putDataTracks []
        { Group := "", Version := "v1", Resource := "pods" } podX)
        { Group := "", Version := "v1", Resource := "services" } svcX)
      { Group := "", Version := "v1", Resource := "pods" } (KObj podX) =
      some (canonicalJSON podX)) ∧
    (Track.get (Track.put (Track.put [] (KObj podX) (.objJson podX))
        (KObj svcX) (.objJson svcX)) (KObj podX) = some (.objJson svcX)) := by
  have h := tracked_cache_keying []
    { Group := "", Version := "v1", Resource := "pods" }
    { Group := "", Version := "v1", Resource := "services" } podX svcX []
    { Key := "/registry/pods/default/x",
      Value := some (.encoded .protobuf podX), PrevValue := none }
    { Key := "/registry/services/specs/default/x",
      Value := some (.encoded .protobuf svcX), PrevValue := none }
    .protobuf .protobuf (by decide) rfl rfl rfl (by decide) (by decide)
  exact ⟨h.2.1, h.2.2.2⟩

/-- C8: the interactive handle's speed starts at 1; SpeedUp and SpeedDown
step by one within bounds; SpeedUp at 10 stays 10 and SpeedDown at 1
stays 1; consequently every finite sequence of SpeedUp/SpeedDown calls
leaves the speed in [1..10]. -/
theorem handle_speed_bounds :
    newHandleSpeed = 1 ∧
    Handle.speedUp 10 = 10 ∧
    Handle.speedDown 1 = 1 ∧
    (∀ s : Int, 1 ≤ s → s < 10 → Handle.speedUp s = s + 1) ∧
    (∀ s : Int, 1 < s → s ≤ 10 → Handle.speedDown s = s - 1) ∧
    (∀ ops : List Bool, 1 ≤ Handle.runKeys ops ∧ Handle.runKeys ops ≤ 10) := by
  refine ⟨rfl, by decide, by decide, ?_, ?_, ?_⟩
  · intro s h1 h2
    simp only [Handle.speedUp, Speed.up]
    omega
  · intro s h1 h2
    simp only [Handle.speedDown, Speed.down]
    have : s - 1 ≠ 0 := by omega
    simp [this]
  · intro ops
    have key : ∀ (l : List Bool) (s : Int), 1 ≤ s → s ≤ 10 →
        1 ≤ l.foldl Handle.applyKey s ∧ l.foldl Handle.applyKey s ≤ 10 := by
      intro l
      induction l with
      | nil => intro s h1 h2; exact ⟨h1, h2⟩
      | cons b rest ih =>
          intro s h1 h2
          have hstep : 1 ≤ Handle.applyKey s b ∧ Handle.applyKey s b ≤ 10 := by
            cases b <;>
              simp only [Handle.applyKey, Handle.speedUp, Handle.speedDown,
                Speed.up, Speed.down] <;>
              split <;> omega
          exact ih _ hstep.1 hstep.2
    exact key ops newHandleSpeed (by decide) (by decide)

/-- C8 witness: instantiating the bounded-speed theorem at speed 5 and at
the key sequence [U, D, U]. -/
theorem handle_speed_bounds_witness :
    Handle.speedUp 5 = 6 ∧ Handle.speedDown 5 = 4 ∧
    (1 ≤ Handle.runKeys [true, false, true] ∧
      Handle.runKeys [true, false, true] ≤ 10) :=
  ⟨handle_speed_bounds.2.2.2.1 5 (by decide) (by decide),
   handle_speed_bounds.2.2.2.2.1 5 (by decide) (by decide),
   handle_speed_bounds.2.2.2.2.2 [true, false, true]⟩

/-- C10: in the get command, when the requested resource is found in the
catalog and is namespaced, an omitted `--namespace` defaults the filter
to "default" unless `--all-namespace` is set; when the resource is
cluster-scoped or `--all-namespace` is set, the filter is cleared even if
`--namespace` was supplied. -/
theorem get_namespace_resolution
    (correct : GroupResource → Option (GroupResource × Bool))
    (flags : GetFlags) (arg0 : String) (cgr : GroupResource)
    (namespaced : Bool)
    (hfound : correct (ParseGroupResource arg0) = some (cgr, namespaced)) :
    (namespaced = true → flags.AllNamespace = false → flags.Namespace = "" →
      getResolveTarget correct flags arg0 = (cgr, "default")) ∧
    (namespaced = false ∨ flags.AllNamespace = true →
      getResolveTarget correct flags arg0 = (cgr, "")) := by
  constructor
  · intro hns hall hempty
    simp [getResolveTarget, hfound, hns, hall, hempty]
  · intro h
    rcases h with h | h
    · simp [getResolveTarget, hfound, h]
    · simp [getResolveTarget, hfound, h]

/-- C10 witness: a catalog that resolves every token to namespaced
"leases"; with no namespace flag the filter becomes "default", and with
`--all-namespace` it is cleared even though `-n kube-system` was
supplied. -/
theorem get_namespace_resolution_witness :
    (getResolveTarget
      (fun _ =>
        some ({ Group := "coordination.k8s.io", Resource := "leases" }, true))
      { Namespace := "", AllNamespace := false } "lease"
      = ({ Group := "coordination.k8s.io", Resource := "leases" }, "default")) ∧
    (getResolveTarget
      (fun _ =>
        some ({ Group := "coordination.k8s.io", Resource := "leases" }, true))
      { Namespace := "kube-system", AllNamespace := true } "lease"
      = ({ Group := "coordination.k8s.io", Resource := "leases" }, "")) := by
  constructor
  · exact (get_namespace_resolution _ _ _ _ _ rfl).1 rfl rfl rfl
  · exact (get_namespace_resolution _ _ _ _ _ rfl).2 (Or.inr rfl)

/-- C6 counterexample: a value failing media-type detection makes the
json printer return the error (writing nothing), while only the yaml
printer emits the commented diagnostic and returns without error. -/
theorem json_printer_errors_on_decode_failure :
    jsonPrinter.Print corruptKV = .error (.unknownEncoding "junk") ∧
    yamlPrinter.Print corruptKV =
      .ok [.diagnostic "/registry/broken" "raw" (.unknownEncoding "junk")
        (some (.garbage "junk"))] :=
  ⟨rfl, rfl⟩

/-- C6 amended: in yaml mode a media-type-detection or conversion
failure emits the commented diagnostic (key, the marker raw, the error,
the raw value) and returns without error; in json mode the same failures
are returned as errors, aborting the surrounding stream. -/
theorem printer_decode_failure_handling :
    (∀ (kv : KeyValue) (e : Err),
      DetectMediaTypeOpt kv.Value = .error e →
      yamlPrinter.Print kv = .ok [.diagnostic kv.Key "raw" e kv.Value] ∧
      jsonPrinter.Print kv = .error e) ∧
    (∀ (kv : KeyValue) (mt : MediaType) (e : Err),
      DetectMediaTypeOpt kv.Value = .ok mt →
      ConvertOpt mt .yaml kv.Value = .error e →
      yamlPrinter.Print kv = .ok [.diagnostic kv.Key "raw" e kv.Value]) ∧
    (∀ (kv : KeyValue) (mt : MediaType) (e : Err),
      DetectMediaTypeOpt kv.Value = .ok mt →
      ConvertOpt mt .json kv.Value = .error e →
      jsonPrinter.Print kv = .error e) := by
  refine ⟨?_, ?_, ?_⟩
  · intro kv e h
    constructor
    · simp [yamlPrinter.Print, h]
    · simp [jsonPrinter.Print, h, Bind.bind, Except.bind]
  · intro kv mt e hdet hconv
    simp [yamlPrinter.Print, hdet, hconv]
  · intro kv mt e hdet hconv
    simp [jsonPrinter.Print, hdet, hconv, Bind.bind, Except.bind]

/-- C6 amended witness: the undetectable value and the unknown-kind value
each produce a yaml diagnostic and a json error. -/
theorem printer_decode_failure_handling_witness :
    (yamlPrinter.Print corruptKV =
        .ok [.diagnostic corruptKV.Key "raw" (.unknownEncoding "junk")
          corruptKV.Value] ∧
      jsonPrinter.Print corruptKV = .error (.unknownEncoding "junk")) ∧
    yamlPrinter.Print unknownKindKV =
      .ok [.diagnostic unknownKindKV.Key "raw" (.unknownKind "mystery")
        unknownKindKV.Value] ∧
    jsonPrinter.Print unknownKindKV = .error (.unknownKind "mystery") :=
  ⟨printer_decode_failure_handling.1 corruptKV (.unknownEncoding "junk") rfl,
   printer_decode_failure_handling.2.1 unknownKindKV .json
     (.unknownKind "mystery") rfl rfl,
   printer_decode_failure_handling.2.2 unknownKindKV .json
     (.unknownKind "mystery") rfl rfl⟩

/-- C4: for each popped patch with event duration t and current
lastApplied: a positive difference advances lastApplied to t and sleeps
exactly the difference (in bounded steps); a difference in [-1s, 0]
sleeps nothing and leaves lastApplied and the speed unchanged; a
difference below -1s with an interactive handle attached applies
SpeedDown and advances lastApplied to t; and in every non-positive case
the patch is applied without sleeping. -/
theorem replay_scheduler_cases (hasHandle : Bool) (speed : Int)
    (t dur past : Int) :
    (0 < t - dur →
      (Loader.handleResourcePatch hasHandle speed t dur past).durSched = t ∧
      (Loader.handleResourcePatch hasHandle speed t dur past).sleeps.sum =
        t - dur ∧
      (Loader.handleResourcePatch hasHandle speed t dur past).sleeps ≠ [] ∧
      (Loader.handleResourcePatch hasHandle speed t dur past).speedAfter =
        speed) ∧
    (-nanosPerSecond ≤ t - dur → t - dur ≤ 0 →
      (Loader.handleResourcePatch hasHandle speed t dur past).sleeps = [] ∧
      (Loader.handleResourcePatch hasHandle speed t dur past).durSched =
        dur ∧
      (Loader.handleResourcePatch hasHandle speed t dur past).speedAfter =
        speed ∧
      (Loader.handleResourcePatch hasHandle speed t dur past).speedDowned =
        false ∧
      (Loader.handleResourcePatch hasHandle speed t dur past).applied =
        true) ∧
    (t - dur < -nanosPerSecond → hasHandle = true →
      (Loader.handleResourcePatch hasHandle speed t dur past).speedAfter =
        Handle.speedDown speed ∧
      (Loader.handleResourcePatch hasHandle speed t dur past).speedDowned =
        true ∧
      (Loader.handleResourcePatch hasHandle speed t dur past).durSched = t ∧
      (Loader.handleResourcePatch hasHandle speed t dur past).sleeps = []) ∧
    (t - dur ≤ 0 →
      (Loader.handleResourcePatch hasHandle speed t dur past).sleeps = [] ∧
      (Loader.handleResourcePatch hasHandle speed t dur past).applied =
        true) := by
  refine ⟨?_, ?_, ?_, ?_⟩
  · intro h
    have h' : dur < t := by omega
    simp [Loader.handleResourcePatch, h, h',
      sleepSteps_sum _ (le_of_lt h), sleepSteps_pos _ h]
  · intro h1 h2
    have hn : ¬ dur < t := by omega
    have hn2 : ¬ (t - dur < -nanosPerSecond) := by omega
    simp [Loader.handleResourcePatch, hn, hn2,
      sleepSteps_nonpos 0 (by omega)]
  · intro h hh
    have hn : ¬ dur < t := by
      simp only [nanosPerSecond] at h; omega
    subst hh
    simp [Loader.handleResourcePatch, hn, h,
      sleepSteps_nonpos 0 (by omega)]
  · intro h
    have hn : ¬ dur < t := by omega
    simp [Loader.handleResourcePatch, hn,
      sleepSteps_nonpos 0 (by omega)]

/-- C4 witness: at speed 3 with lastApplied 0, a patch at t = 2.5s
sleeps 2.5s in steps [1s, 1s, 0.5s]; a patch at t = -0.5s is coincident;
a patch at t = -2s with a handle attached speed-downs to 2 and advances
lastApplied. -/
theorem replay_scheduler_cases_witness :
    ((Loader.handleResourcePatch true 3 2500000000 0 0).durSched =
        2500000000 ∧
      (Loader.handleResourcePatch true 3 2500000000 0 0).sleeps.sum =
        2500000000 ∧
      (Loader.handleResourcePatch true 3 2500000000 0 0).sleeps ≠ [] ∧
      (Loader.handleResourcePatch true 3 2500000000 0 0).speedAfter = 3) ∧
    ((Loader.handleResourcePatch true 3 (-500000000) 0 0).sleeps = [] ∧
      (Loader.handleResourcePatch true 3 (-500000000) 0 0).durSched = 0 ∧
      (Loader.handleResourcePatch true 3 (-500000000) 0 0).speedAfter = 3 ∧
      (Loader.handleResourcePatch true 3 (-500000000) 0 0).speedDowned =
        false ∧
      (Loader.handleResourcePatch true 3 (-500000000) 0 0).applied =
        true) ∧
    ((Loader.handleResourcePatch true 3 (-2000000000) 0 0).speedAfter =
        Handle.speedDown 3 ∧
      (Loader.handleResourcePatch true 3 (-2000000000) 0 0).speedDowned =
        true ∧
      (Loader.handleResourcePatch true 3 (-2000000000) 0 0).durSched =
        -2000000000 ∧
      (Loader.handleResourcePatch true 3 (-2000000000) 0 0).sleeps = []) :=
  ⟨(replay_scheduler_cases true 3 2500000000 0 0).1 (by decide),
   (replay_scheduler_cases true 3 (-500000000) 0 0).2.1 (by decide)
     (by decide),
   (replay_scheduler_cases true 3 (-2000000000) 0 0).2.2.1 (by decide) rfl⟩


theorem stablyBefore_trans (ds : List Int) {i j k : Nat}
    (h1 : stablyBefore ds i j) (h2 : stablyBefore ds j k) :
    stablyBefore ds i k := by
  rcases h1 with h1 | ⟨h1e, h1lt⟩ <;> rcases h2 with h2 | ⟨h2e, h2lt⟩ <;>
    simp only [stablyBefore] <;> omega

theorem stablyBefore_irrefl (ds : List Int) (i : Nat) :
    ¬ stablyBefore ds i i := by
  simp [stablyBefore]

theorem stablyBefore_total (ds : List Int) {i j : Nat} (hne : i ≠ j) :
    stablyBefore ds i j ∨ stablyBefore ds j i := by
  simp only [stablyBefore]
  omega

theorem sortedPos_lt_of_stablyBefore (ds : List Int) {i j : Nat}
    (hi : i < ds.length) (h : stablyBefore ds i j) :
    sortedPos ds i < sortedPos ds j := by
  apply Finset.card_lt_card
  constructor
  · intro k hk
    simp only [Finset.mem_filter, Finset.mem_range] at hk ⊢
    exact ⟨hk.1, stablyBefore_trans ds hk.2 h⟩
  · intro hsub
    have hi2 : i ∈ (Finset.range ds.length).filter
        (fun k => stablyBefore ds k j) := by
      simp only [Finset.mem_filter, Finset.mem_range]
      exact ⟨hi, h⟩
    have := hsub hi2
    simp only [Finset.mem_filter] at this
    exact stablyBefore_irrefl ds i this.2

theorem key_le_of_sortedPos_lt (ds : List Int) {i j : Nat}
    (hj : j < ds.length) (h : sortedPos ds i < sortedPos ds j) :
    ds.getD i 0 ≤ ds.getD j 0 := by
  by_contra hlt
  push_neg at hlt
  have : stablyBefore ds j i := Or.inl hlt
  have := sortedPos_lt_of_stablyBefore ds hj this
  omega

theorem sortedPos_lt_length (ds : List Int) {i : Nat} (hi : i < ds.length) :
    sortedPos ds i < ds.length := by
  have hsub : (Finset.range ds.length).filter (fun j => stablyBefore ds j i) ⊆
      (Finset.range ds.length).erase i := by
    intro k hk
    simp only [Finset.mem_filter, Finset.mem_range] at hk
    refine Finset.mem_erase.mpr ⟨?_, Finset.mem_range.mpr hk.1⟩
    intro hki
    exact stablyBefore_irrefl ds i (hki ▸ hk.2)
  calc sortedPos ds i ≤ ((Finset.range ds.length).erase i).card :=
        Finset.card_le_card hsub
    _ < (Finset.range ds.length).card := by
        apply Finset.card_erase_lt_of_mem
        exact Finset.mem_range.mpr hi
    _ = ds.length := Finset.card_range _

theorem sortedPos_injOn (ds : List Int) :
    Set.InjOn (sortedPos ds) (Finset.range ds.length) := by
  intro i hi j hj hij
  by_contra hne
  rcases stablyBefore_total ds hne with h | h
  · have := sortedPos_lt_of_stablyBefore ds
      (Finset.mem_range.mp (Finset.mem_coe.mp hi)) h
    omega
  · have := sortedPos_lt_of_stablyBefore ds
      (Finset.mem_range.mp (Finset.mem_coe.mp hj)) h
    omega

theorem sortedPos_image (ds : List Int) :
    (Finset.range ds.length).image (sortedPos ds) = Finset.range ds.length := by
  apply Finset.eq_of_subset_of_card_le
  · intro r hr
    rcases Finset.mem_image.mp hr with ⟨i, hi, rfl⟩
    exact Finset.mem_range.mpr (sortedPos_lt_length ds (Finset.mem_range.mp hi))
  · rw [Finset.card_image_of_injOn (sortedPos_injOn ds)]

/-- The set of indices whose sorted position is at most `m` has exactly
`m + 1` elements when `m + 1 ≤ n`. -/
theorem card_sortedPos_le (ds : List Int) (m : Nat)
    (hm : m + 1 ≤ ds.length) :
    ((Finset.range ds.length).filter (fun l => sortedPos ds l ≤ m)).card
      = m + 1 := by
  set L := (Finset.range ds.length).filter (fun l => sortedPos ds l ≤ m) with hL
  have himg : L.image (sortedPos ds) =
      (Finset.range ds.length).filter (fun r => r ≤ m) := by
    apply Finset.Subset.antisymm
    · intro r hr
      rcases Finset.mem_image.mp hr with ⟨i, hi, rfl⟩
      rw [hL] at hi
      simp only [Finset.mem_filter, Finset.mem_range] at hi
      simp only [Finset.mem_filter, Finset.mem_range]
      exact ⟨sortedPos_lt_length ds hi.1, hi.2⟩
    · intro r hr
      simp only [Finset.mem_filter, Finset.mem_range] at hr
      have : r ∈ (Finset.range ds.length).image (sortedPos ds) := by
        rw [sortedPos_image]
        exact Finset.mem_range.mpr hr.1
      rcases Finset.mem_image.mp this with ⟨i, hi, rfl⟩
      apply Finset.mem_image.mpr
      refine ⟨i, ?_, rfl⟩
      rw [hL]
      simp only [Finset.mem_filter, Finset.mem_range] at hi ⊢
      exact ⟨hi, hr.2⟩
  have hcard : L.card = (L.image (sortedPos ds)).card := by
    rw [Finset.card_image_of_injOn]
    intro i hi j hj hij
    have hi' : i ∈ L := hi
    have hj' : j ∈ L := hj
    rw [hL] at hi' hj'
    simp only [Finset.mem_filter] at hi' hj'
    exact sortedPos_injOn ds (Finset.mem_coe.mpr hi'.1)
      (Finset.mem_coe.mpr hj'.1) hij
  rw [hcard, himg]
  have : (Finset.range ds.length).filter (fun r => r ≤ m) =
      Finset.range (m + 1) := by
    ext r
    simp only [Finset.mem_filter, Finset.mem_range]
    omega
  rw [this, Finset.card_range]

/-- Selecting entries of `l` at a strictly increasing list of valid
indices yields a sublist of `l`. -/
theorem map_getD_sublist :
    ∀ (l : List Int) (is : List Nat), is.Pairwise (· < ·) →
      (∀ i ∈ is, i < l.length) →
      (is.map (fun i => l.getD i 0)).Sublist l := by
  intro l
  induction l with
  | nil =>
      intro is _ hbound
      cases is with
      | nil => simp
      | cons i t => exact absurd (hbound i (by simp)) (by simp)
  | cons a t ih =>
      intro is hpair hbound
      cases is with
      | nil => simp
      | cons i rest =>
          have hshift : ∀ s : List Nat, (∀ j ∈ s, 0 < j) →
              s.map (fun j => (a :: t).getD j 0) =
                (s.map (fun j => j - 1)).map (fun j => t.getD j 0) := by
            intro s hpos
            rw [List.map_map]
            apply List.map_congr_left
            intro j hj
            have h0 : 0 < j := hpos j hj
            rcases Nat.exists_eq_succ_of_ne_zero (by omega : j ≠ 0) with ⟨k, rfl⟩
            simp [List.getD]
          rcases Nat.eq_zero_or_pos i with hi0 | hipos
          · subst hi0
            have hpos : ∀ j ∈ rest, 0 < j := by
              intro j hj
              exact (List.pairwise_cons.mp hpair).1 j hj
            simp only [List.map_cons]
            have hhead : (a :: t).getD 0 0 = a := rfl
            rw [hhead, hshift rest hpos]
            apply List.Sublist.cons₂
            apply ih
            · have := (List.pairwise_cons.mp hpair).2
              rw [List.pairwise_map]
              apply this.imp_of_mem
              intro x y hx hy hxy
              have hx0 : 0 < x := hpos x hx
              omega
            · intro j hj
              rcases List.mem_map.mp hj with ⟨x, hx, rfl⟩
              have := hbound x (by simp [hx])
              have hx0 : 0 < x := hpos x hx
              simp at this
              omega
          · have hpos : ∀ j ∈ i :: rest, 0 < j := by
              intro j hj
              rcases List.mem_cons.mp hj with rfl | hj
              · exact hipos
              · have := (List.pairwise_cons.mp hpair).1 j hj
                omega
            rw [hshift (i :: rest) hpos]
            apply List.Sublist.cons
            apply ih
            · rw [List.pairwise_map]
              apply hpair.imp_of_mem
              intro x y hx hy hxy
              have hx0 : 0 < x := hpos x hx
              omega
            · intro j hj
              rcases List.mem_map.mp hj with ⟨x, hx, rfl⟩
              have := hbound x hx
              have hx0 : 0 < x := hpos x hx
              simp at this
              omega

/-- Selecting the entries of `l` at a finite set of valid indices is a
sub-multiset of `l`. -/
theorem map_getD_le_multiset (l : List Int) (S : Finset ℕ)
    (hS : ∀ i ∈ S, i < l.length) :
    Multiset.map (fun i => l.getD i 0) S.val ≤ (l : Multiset Int) := by
  have hsub : ((S.sort (· ≤ ·)).map (fun i => l.getD i 0)).Sublist l := by
    apply map_getD_sublist
    · have := Finset.sort_sorted_lt S
      exact this
    · intro i hi
      apply hS
      rcases List.mem_map.mp (List.mem_map_of_mem _ hi) with _
      exact (Finset.mem_sort (α := ℕ) (· ≤ ·)).mp hi
  have hle : (((S.sort (· ≤ ·)).map (fun i => l.getD i 0) : List Int) :
      Multiset Int) ≤ (l : Multiset Int) := by
    rw [Multiset.coe_le]
    exact hsub.subperm
  have heq : (((S.sort (· ≤ ·)).map (fun i => l.getD i 0) : List Int) :
      Multiset Int) = Multiset.map (fun i => l.getD i 0) S.val := by
    rw [← Multiset.map_coe]
    congr 1
    exact Finset.sort_eq (· ≤ ·) S
  rw [← heq]
  exact hle

/-- If a multiset `M` fits inside `A + B` and is strictly larger than
`A`, some element of `M` lies in `B`. -/
theorem exists_mem_right_of_card_lt {M A B : Multiset Int} (h : M ≤ A + B)
    (hcard : Multiset.card A < Multiset.card M) : ∃ v, v ∈ M ∧ v ∈ B := by
  by_contra hno
  push_neg at hno
  have hMA : M ≤ A := by
    rw [Multiset.le_iff_count]
    intro a
    by_cases ha : a ∈ M
    · have hcount := Multiset.le_iff_count.mp h a
      rw [Multiset.count_add] at hcount
      have hB : Multiset.count a B = 0 :=
        Multiset.count_eq_zero.mpr (hno a ha)
      omega
    · simp [Multiset.count_eq_zero.mpr ha]
  have := Multiset.card_le_card hMA
  omega

theorem Heap.push_perm (rp : ResourcePatch) (l : List ResourcePatch) :
    (Heap.push rp l).Perm (rp :: l) := by
  induction l with
  | nil => simp [Heap.push]
  | cons y ys ih =>
      rw [Heap.push]
      split
      · exact (ih.cons y).trans (List.Perm.swap rp y ys)
      · exact List.Perm.refl _

theorem Heap.push_length (rp : ResourcePatch) (l : List ResourcePatch) :
    (Heap.push rp l).length = l.length + 1 :=
  (Heap.push_perm rp l).length_eq

theorem Heap.push_sorted (rp : ResourcePatch) (l : List ResourcePatch)
    (h : l.Sorted durLE) : (Heap.push rp l).Sorted durLE := by
  induction l with
  | nil => simp [Heap.push]
  | cons y ys ih =>
      rw [Heap.push]
      rcases List.sorted_cons.mp h with ⟨hy, hys⟩
      split
      · rename_i hc
        apply List.sorted_cons.mpr
        refine ⟨?_, ih hys⟩
        intro b hb
        have hb2 : b ∈ rp :: ys := (Heap.push_perm rp ys).mem_iff.mp hb
        rcases List.mem_cons.mp hb2 with rfl | hb3
        · exact hc
        · exact hy b hb3
      · rename_i hc
        apply List.sorted_cons.mpr
        refine ⟨?_, h⟩
        intro b hb
        rcases List.mem_cons.mp hb with rfl | hb
        · exact le_of_lt (lt_of_not_le hc)
        · exact le_trans (le_of_lt (lt_of_not_le hc)) (hy b hb)

theorem getD_map_mid (f : ResourcePatch → Int) (l r : List ResourcePatch)
    (a : ResourcePatch) : ((l ++ a :: r).map f).getD l.length 0 = f a := by
  induction l with
  | nil => simp
  | cons x xs ih => simpa using ih

theorem getD_map_left (f : ResourcePatch → Int) (l r : List ResourcePatch)
    (i : Nat) (h : i < l.length) :
    ((l ++ r).map f).getD i 0 = (l.map f).getD i 0 := by
  induction l generalizing i with
  | nil => simp at h
  | cons x xs ih =>
      cases i with
      | zero => simp
      | succ n =>
          simp only [List.cons_append, List.map_cons, List.getD_cons_succ]
          exact ih n (by simpa using h)

theorem replay_aux (xs : List ResourcePatch) (ds : List Int)
    (hds : ds = xs.map (fun rp => rp.DurationNanosecond))
    (hdisp : ∀ i, i < xs.length →
      ((i : Int) - sortedPos ds i < 1024 ∧
        (sortedPos ds i : Int) - i < 1024))
    (docs : List ReplayDoc) :
    ∀ (con out buf : List ResourcePatch),
      xs = con ++ pushedPatches docs →
      con.Perm (out ++ buf) →
      buf.Sorted durLE →
      out.Sorted durLE →
      (∀ o ∈ out, ∀ b ∈ buf, durLE o b) →
      (∀ o ∈ out, ∀ j, con.length ≤ j → j < xs.length →
        o.DurationNanosecond ≤ ds.getD j 0) →
      buf.length ≤ 1023 →
      (out ++ Loader.replayOutputs docs buf).Sorted durLE := by
  induction docs with
  | nil =>
      intro con out buf hsplit hperm hbufs houts hob hfut hsize
      rw [Loader.replayOutputs]
      exact List.pairwise_append.mpr ⟨houts, hbufs, hob⟩
  | cons doc docs ih =>
      intro con out buf hsplit hperm hbufs houts hob hfut hsize
      cases doc with
      | badDoc tag =>
          rw [Loader.replayOutputs]
          exact ih con out buf hsplit hperm hbufs houts hob hfut hsize
      | otherKind tag =>
          rw [Loader.replayOutputs]
          exact ih con out buf hsplit hperm hbufs houts hob hfut hsize
      | convertFails tag =>
          rw [Loader.replayOutputs]
          simpa using houts
      | patch rp =>
          rw [pushedPatches] at hsplit
          have hidx : con.length < xs.length := by
            rw [hsplit, List.length_append, List.length_cons]
            omega
          have hn : ds.length = xs.length := by rw [hds, List.length_map]
          have hkey : ds.getD con.length 0 = rp.DurationNanosecond := by
            rw [hds, hsplit]
            exact getD_map_mid _ con (pushedPatches docs) rp
          have hout_le_rp : ∀ o ∈ out,
              o.DurationNanosecond ≤ rp.DurationNanosecond := by
            intro o ho
            have := hfut o ho con.length (le_refl _) hidx
            rwa [hkey] at this
          have hperm2 : (con ++ [rp]).Perm (out ++ Heap.push rp buf) := by
            refine (hperm.append_right [rp]).trans ?_
            rw [List.append_assoc]
            exact List.Perm.append_left out
              ((List.perm_append_singleton rp buf).trans
                (Heap.push_perm rp buf).symm)
          have hsplit' : xs = (con ++ [rp]) ++ pushedPatches docs := by
            rw [hsplit]
            simp
          have hps := Heap.push_sorted rp buf hbufs
          rw [Loader.replayOutputs]
          by_cases hlen : 1024 ≤ (Heap.push rp buf).length
          · rw [if_pos hlen]
            rcases hb : Heap.push rp buf with _ | ⟨top, rest⟩
            · rw [hb] at hlen
              simp at hlen
            · show List.Sorted durLE
                (out ++ top :: Loader.replayOutputs docs rest)
              have goal_eq : out ++ top :: Loader.replayOutputs docs rest =
                  (out ++ [top]) ++ Loader.replayOutputs docs rest := by
                simp
              rw [goal_eq]
              have htop_mem : top ∈ rp :: buf := by
                have : top ∈ Heap.push rp buf := by
                  rw [hb]; exact List.mem_cons_self top rest
                exact (Heap.push_perm rp buf).mem_iff.mp this
              have hout_le_top : ∀ o ∈ out, durLE o top := by
                intro o ho
                rcases List.mem_cons.mp htop_mem with rfl | htop2
                · exact hout_le_rp o ho
                · exact hob o ho top htop2
              have hps' : (top :: rest).Sorted durLE := by rw [← hb]; exact hps
              have htop_le_rest : ∀ b ∈ rest, durLE top b :=
                (List.sorted_cons.mp hps').1
              have hrest_sub : ∀ b ∈ rest, b ∈ rp :: buf := by
                intro b hbr
                have : b ∈ Heap.push rp buf := by
                  rw [hb]; exact List.mem_cons_of_mem top hbr
                exact (Heap.push_perm rp buf).mem_iff.mp this
              have hlen' := Heap.push_length rp buf
              have hbuflen : buf.length = 1023 := by
                rw [hb] at hlen'
                rw [hb] at hlen
                simp only [List.length_cons] at hlen' hlen
                omega
              have hc : con.length = out.length + 1023 := by
                have hpl := hperm.length_eq
                rw [List.length_append] at hpl
                omega
              apply ih (con ++ [rp]) (out ++ [top]) rest hsplit'
              · rw [List.append_assoc]
                rw [hb] at hperm2
                exact hperm2
              · exact hps'.of_cons
              · refine List.pairwise_append.mpr ⟨houts, ?_, ?_⟩
                · simp
                · intro o ho b hbm
                  rcases List.mem_singleton.mp hbm with rfl
                  exact hout_le_top o ho
              · intro o ho b hbr
                rcases List.mem_append.mp ho with ho2 | ho2
                · rcases List.mem_cons.mp (hrest_sub b hbr) with rfl | hb3
                  · exact hout_le_rp o ho2
                  · exact hob o ho2 b hb3
                · rcases List.mem_singleton.mp ho2 with rfl
                  exact htop_le_rest b hbr
              · -- future condition, including the pigeonhole for `top`
                intro o ho j hjge hjlt
                rw [List.length_append, List.length_cons,
                  List.length_nil] at hjge
                rcases List.mem_append.mp ho with ho2 | ho2
                · exact hfut o ho2 j (by omega) hjlt
                · rw [List.mem_singleton.mp ho2]
                  set m := out.length with hm
                  have hjn' : j < ds.length := by omega
                  have hrankj : m + 1 ≤ sortedPos ds j := by
                    have := (hdisp j hjlt).1
                    omega
                  have hmn : m + 1 ≤ ds.length := by omega
                  set L := (Finset.range ds.length).filter
                    (fun l => sortedPos ds l ≤ m) with hL
                  have hcardL : L.card = m + 1 := card_sortedPos_le ds m hmn
                  have hLb : ∀ l ∈ L, l < (con ++ [rp]).length := by
                    intro l hl
                    rw [hL] at hl
                    simp only [Finset.mem_filter, Finset.mem_range] at hl
                    have := (hdisp l (by omega)).1
                    rw [List.length_append, List.length_cons,
                      List.length_nil]
                    omega
                  have heqf : ∀ l ∈ L.val, ds.getD l 0 =
                      ((con ++ [rp]).map
                        (fun rp => rp.DurationNanosecond)).getD l 0 := by
                    intro l hl
                    have hlb := hLb l hl
                    rw [hds, hsplit']
                    rw [getD_map_left _ _ _ _ hlb]
                  have hvals_le :
                      Multiset.map (fun l => ds.getD l 0) L.val ≤
                        ↑((con ++ [rp]).map
                          (fun rp => rp.DurationNanosecond)) := by
                    rw [Multiset.map_congr rfl heqf]
                    apply map_getD_le_multiset
                    intro i hi
                    rw [List.length_map]
                    exact hLb i hi
                  have hsplitkeys :
                      (↑((con ++ [rp]).map
                          (fun rp => rp.DurationNanosecond)) :
                        Multiset Int) =
                      ↑(out.map (fun rp => rp.DurationNanosecond)) +
                        ↑((Heap.push rp buf).map
                          (fun rp => rp.DurationNanosecond)) := by
                    have hmp : ((con ++ [rp]).map
                        (fun rp => rp.DurationNanosecond)).Perm
                        ((out ++ Heap.push rp buf).map
                          (fun rp => rp.DurationNanosecond)) :=
                      hperm2.map _
                    rw [Multiset.coe_eq_coe.mpr hmp, List.map_append,
                      ← Multiset.coe_add]
                  have hcardM : Multiset.card
                      (Multiset.map (fun l => ds.getD l 0) L.val) = m + 1 := by
                    rw [Multiset.card_map]
                    exact hcardL
                  have hcardA : Multiset.card
                      (↑(out.map (fun rp => rp.DurationNanosecond)) :
                        Multiset Int) = m := by
                    simp [hm]
                  have hpig := exists_mem_right_of_card_lt
                    (hsplitkeys ▸ hvals_le) (by omega)
                  rcases hpig with ⟨v, hvM, hvB⟩
                  rcases Multiset.mem_map.mp hvM with ⟨l, hlL, hlv⟩
                  have hlL' : l ∈ L := hlL
                  have hlfacts : l < ds.length ∧ sortedPos ds l ≤ m := by
                    rw [hL] at hlL'
                    simp only [Finset.mem_filter, Finset.mem_range] at hlL'
                    exact ⟨hlL'.1, hlL'.2⟩
                  have hvB' : v ∈ (Heap.push rp buf).map
                      (fun rp => rp.DurationNanosecond) := by
                    exact Multiset.mem_coe.mp hvB
                  rcases List.mem_map.mp hvB' with ⟨b, hbmem, hfb⟩
                  have htop_min : top.DurationNanosecond ≤
                      b.DurationNanosecond := by
                    rw [hb] at hbmem
                    rcases List.mem_cons.mp hbmem with rfl | hb2
                    · exact le_refl _
                    · exact (List.sorted_cons.mp hps').1 b hb2
                  have hvj : v ≤ ds.getD j 0 := by
                    rw [← hlv]
                    have hlm := hlfacts.2
                    exact key_le_of_sortedPos_lt ds hjn' (by omega)
                  calc top.DurationNanosecond ≤ b.DurationNanosecond :=
                        htop_min
                    _ = v := hfb
                    _ ≤ ds.getD j 0 := hvj
              · have := Heap.push_length rp buf
                rw [hb] at this
                simp only [List.length_cons] at this
                omega
          · rw [if_neg hlen]
            apply ih (con ++ [rp]) out (Heap.push rp buf) hsplit' hperm2
              (Heap.push_sorted rp buf hbufs) houts
            · intro o ho b hb2
              rcases List.mem_cons.mp
                  ((Heap.push_perm rp buf).mem_iff.mp hb2) with rfl | hb3
              · exact hout_le_rp o ho
              · exact hob o ho b hb3
            · intro o ho j hj hjn
              apply hfut o ho j _ hjn
              rw [List.length_append, List.length_cons,
                List.length_nil] at hj
              omega
            · have := Heap.push_length rp buf
              omega

/-- C5: during Replay each decoded ResourcePatch is pushed into the
duration-keyed min-heap; once the heap size reaches 1024 the minimum is
popped and handed to the scheduler, and after EOF the heap is drained in
priority order — hence for every input stream in which each event is
displaced fewer than 1024 positions from its stable sorted position, the
sequence of patches handed to the scheduler is non-decreasing in
durationNanosecond. -/
theorem replay_heap_window_sorted (docs : List ReplayDoc)
    (hdisp : ∀ i, i < (pushedPatches docs).length →
      ((i : Int) - sortedPos ((pushedPatches docs).map
          (fun rp => rp.DurationNanosecond)) i < 1024 ∧
        (sortedPos ((pushedPatches docs).map
          (fun rp => rp.DurationNanosecond)) i : Int) - i < 1024)) :
    ((Loader.replayOutputs docs []).map
      (fun rp => rp.DurationNanosecond)).Sorted (· ≤ ·) := by
  have h := replay_aux (pushedPatches docs) _ rfl
    (by simpa using hdisp) docs [] [] [] (by simp) (List.Perm.refl _)
    (by simp) (by simp) (by simp) (by simp) (by simp)
  simp only [List.nil_append] at h
  exact List.Pairwise.map _ (fun a b hab => hab) h

/-- C5 witness: the stream with durations [0s, 2s, 1s, 3s] (each event
displaced at most one position) is handed to the scheduler in sorted
order [0s, 1s, 2s, 3s]. -/
theorem replay_heap_window_sorted_witness :
    ((Loader.replayOutputs
        [.patch (rpAt 0), .patch (rpAt 2000000000),
          .patch (rpAt 1000000000), .patch (rpAt 3000000000)] []).map
      (fun rp => rp.DurationNanosecond)).Sorted (· ≤ ·) ∧
    (Loader.replayOutputs
        [.patch (rpAt 0), .patch (rpAt 2000000000),
          .patch (rpAt 1000000000), .patch (rpAt 3000000000)] []).map
      (fun rp => rp.DurationNanosecond) =
      [0, 1000000000, 2000000000, 3000000000] :=
  ⟨replay_heap_window_sorted _ (by decide), by decide⟩
